import Mathlib

/-!
Verification development for the mlpack excerpt consisting of
`weight_norm.hpp` (the WeightNorm layer wrapper), the
`inverse_quadratic_function.hpp` activation function, and the
`preprocess_imputer_test.cpp` binding tests.

Real-valued tensors are embedded as lists of real numbers; a per-unit
grouped parameter buffer is a list of element groups (one group per
output unit), matching the spec's grouping for weight normalization.
The implementation file `weight_norm_impl.hpp` and the binding
`preprocess_imputer_main.cpp` are not part of the sources, so the
operations they define are modelled from the spec; definitions carrying
a `Modelled from the spec:` doc comment record this.
-/

namespace Mlpack

/-! ## Inverse Quadratic activation (`inverse_quadratic_function.hpp`) -/

namespace InvQuadFunction

/-- Scalar overload `InvQuadFunction::Fn`: `return 1 / (1 + x * x);`. -/
noncomputable def Fn (x : ℝ) : ℝ := 1 / (1 + x * x)

/-- Vectorized overload `InvQuadFunction::Fn`:
`y = 1 / (1 + arma::pow(x, 2));` applied elementwise. -/
noncomputable def FnVec (x : List ℝ) : List ℝ :=
  x.map (fun t => 1 / (1 + t ^ 2))

/-- Scalar overload `InvQuadFunction::Deriv`:
`return -2 * y / std::pow(1 + std::pow(y, 2), 2);`. -/
noncomputable def Deriv (y : ℝ) : ℝ := -2 * y / (1 + y ^ 2) ^ 2

/-- Vectorized overload `InvQuadFunction::Deriv`:
`y = -2 * x / arma::pow(1 + arma::pow(x, 2), 2);` applied elementwise. -/
noncomputable def DerivVec (x : List ℝ) : List ℝ :=
  x.map (fun t => -2 * t / (1 + t ^ 2) ^ 2)

end InvQuadFunction

lemma one_add_sq_ne_zero (x : ℝ) : 1 + x * x ≠ 0 := by
  have h : (0 : ℝ) < 1 + x * x := by nlinarith [mul_self_nonneg x]
  exact ne_of_gt h

lemma invQuad_hasDerivAt (x : ℝ) :
    HasDerivAt InvQuadFunction.Fn (InvQuadFunction.Deriv x) x := by
  have hid : HasDerivAt (fun t : ℝ => t) 1 x := hasDerivAt_id x
  have hsq : HasDerivAt (fun t : ℝ => t * t) (1 * x + x * 1) x := hid.mul hid
  have hc : HasDerivAt (fun t : ℝ => 1 + t * t) (1 * x + x * 1) x :=
    hsq.const_add 1
  have hinv : HasDerivAt (fun t : ℝ => (1 + t * t)⁻¹)
      (-(1 * x + x * 1) / (1 + x * x) ^ 2) x :=
    hc.inv (one_add_sq_ne_zero x)
  have hfn : InvQuadFunction.Fn = fun t : ℝ => (1 + t * t)⁻¹ := by
    funext t
    simp [InvQuadFunction.Fn, one_div]
  have hval : -(1 * x + x * 1) / (1 + x * x) ^ 2 = InvQuadFunction.Deriv x := by
    simp only [InvQuadFunction.Deriv]
    ring_nf
  rw [hfn]
  exact hval ▸ hinv

/-- C9: the scalar and vectorized overloads of `InvQuadFunction` agree
elementwise — the vectorized `Fn` is the elementwise map of the scalar
`Fn`, the vectorized `Deriv` is the elementwise map of the scalar
`Deriv`, and the scalar `Deriv` is the calculus derivative of `Fn`. -/
theorem invQuad_overloads_agree_and_deriv_correct :
    (∀ x : List ℝ, InvQuadFunction.FnVec x = x.map InvQuadFunction.Fn) ∧
    (∀ x : List ℝ, InvQuadFunction.DerivVec x = x.map InvQuadFunction.Deriv) ∧
    (∀ x : ℝ, HasDerivAt InvQuadFunction.Fn (InvQuadFunction.Deriv x) x) := by
  refine ⟨fun x => ?_, fun x => ?_, invQuad_hasDerivAt⟩
  · apply List.map_congr_left
    intro t _
    simp [InvQuadFunction.Fn, sq]
  · apply List.map_congr_left
    intro t _
    rfl

/-! ## WeightNorm layer wrapper (`weight_norm.hpp`)

The header declares the class; `weight_norm_impl.hpp` is not among the
sources, so the bodies of `Reset`, `Forward`, `Backward`, `Gradient` and
`Add` are modelled from the spec (§4.1–§4.5 of spec.md).  A parameter
buffer grouped per output unit is a `List (List ℝ)`: one inner list per
output unit, holding that unit's element group. -/

/-- Dot product of two element groups (zip-truncating, as both always
have the unit's group length). -/
noncomputable def dot (a b : List ℝ) : ℝ := (List.zipWith (fun x y => x * y) a b).sum

/-- Per-unit Euclidean norm of one element group: `‖u‖ = sqrt (Σ uᵢ²)`. -/
noncomputable def unitNorm (u : List ℝ) : ℝ := Real.sqrt ((u.map (fun x => x * x)).sum)

/-- Scaling a group by a scalar (the claim's `c * u` vector operation). -/
noncomputable def vscale (c : ℝ) (u : List ℝ) : List ℝ := u.map (fun x => c * x)

/-- Elementwise difference of two groups (the claim's `a - b`). -/
noncomputable def vsub (a b : List ℝ) : List ℝ := List.zipWith (fun x y => x - y) a b

lemma sum_sq_nonneg (u : List ℝ) : 0 ≤ (u.map (fun x => x * x)).sum := by
  apply List.sum_nonneg
  intro x hx
  rcases List.mem_map.mp hx with ⟨y, _, rfl⟩
  exact mul_self_nonneg y

lemma unitNorm_nonneg (u : List ℝ) : 0 ≤ unitNorm u := Real.sqrt_nonneg _

lemma sum_sq_eq_zero {u : List ℝ} (h : (u.map (fun x => x * x)).sum = 0) :
    ∀ x ∈ u, x = 0 := by
  induction u with
  | nil => intro x hx; cases hx
  | cons a t ih =>
    simp only [List.map_cons, List.sum_cons] at h
    have ha : 0 ≤ a * a := mul_self_nonneg a
    have ht : 0 ≤ (t.map (fun x => x * x)).sum := sum_sq_nonneg t
    have ha0 : a * a = 0 := by linarith
    have ht0 : (t.map (fun x => x * x)).sum = 0 := by linarith
    intro x hx
    rcases List.mem_cons.mp hx with rfl | hx
    · exact mul_self_eq_zero.mp ha0
    · exact ih ht0 x hx

lemma unitNorm_eq_zero {u : List ℝ} (h : unitNorm u = 0) : ∀ x ∈ u, x = 0 := by
  have hs : (u.map (fun x => x * x)).sum = 0 := by
    have := (Real.sqrt_eq_zero (sum_sq_nonneg u)).mp h
    exact this
  exact sum_sq_eq_zero hs

/-- Modelled from the spec: effective weights `w = g * v / ‖v‖` (spec
§4.2.2 and the glossary), per output unit — magnitude `g` gives one
scalar per unit, the norm is the unit's Euclidean norm. -/
noncomputable def effectiveWeights (g : List ℝ) (v : List (List ℝ)) : List (List ℝ) :=
  List.zipWith (fun gi vi => vi.map (fun x => gi * (x / unitNorm vi))) g v

/-- Modelled from the spec: the per-unit norm with the numerical floor
of spec §7 ("floor the norm at a small epsilon (preferred)"). -/
noncomputable def flooredNorm (u : List ℝ) (eps : ℝ) : ℝ := max (unitNorm u) eps

/-- Modelled from the spec: effective weights as `Forward` computes
them, with the per-unit norm floored at `eps`. -/
noncomputable def effectiveWeightsFloored (eps : ℝ) (g : List ℝ)
    (v : List (List ℝ)) : List (List ℝ) :=
  List.zipWith (fun gi vi => vi.map (fun x => gi * (x / flooredNorm vi eps))) g v

/-- Total number of elements in a grouped parameter buffer. -/
def paramCount (w : List (List ℝ)) : ℕ := (w.map List.length).sum

/-- Modelled from the spec: the state of a `WeightNorm` wrapper and the
`LayerCapability` contract of its single inner layer (spec §3, §6).
The inner layer is abstracted by its three operations, each a function
of the layer's installed parameter buffer; `innerParams` is that
buffer, `v` the direction tensor (`vectorParameter`), `g` the magnitude
(`scalarParameter`). -/
structure WNState where
  v : List (List ℝ)
  g : List ℝ
  innerParams : List (List ℝ)
  forwardFn : List (List ℝ) → List ℝ → List ℝ
  backwardFn : List (List ℝ) → List ℝ → List ℝ → List ℝ
  gradientFn : List (List ℝ) → List ℝ → List ℝ → List (List ℝ)

/-- Modelled from the spec: `WeightNorm::Reset` (body in the absent
`weight_norm_impl.hpp`); initializes `v` to the inner layer's current
parameters and `g` to their per-unit Euclidean norm (spec §3 lifecycle,
§4.1). -/
noncomputable def wnReset (st : WNState) : WNState :=
  { st with v := st.innerParams, g := st.innerParams.map unitNorm }

/-- Modelled from the spec: `WeightNorm::Forward` (body in the absent
`weight_norm_impl.hpp`); computes per-unit norms floored at `eps`
(spec §4.2.2, §7), writes the effective weights into the inner layer's
parameter buffer (§4.2.3) and delegates to the inner layer's `Forward`
(§4.2.4).  Returns the updated state and the output. -/
noncomputable def wnForward (eps : ℝ) (st : WNState) (input : List ℝ) :
    WNState × List ℝ :=
  let w := effectiveWeightsFloored eps st.g st.v
  ({ st with innerParams := w }, st.forwardFn w input)

/-- Modelled from the spec: `WeightNorm::Backward` (body in the absent
`weight_norm_impl.hpp`); pure delegation to the inner layer's
`Backward` on its currently installed parameter buffer (spec §4.3). -/
noncomputable def wnBackward (st : WNState) (input gy : List ℝ) : List ℝ :=
  st.backwardFn st.innerParams input gy

/-- Modelled from the spec: the direction-gradient of one output unit,
`dL/dv = (g/‖v‖) dL/dw − (g (dL/dw · v)/‖v‖³) v`, computed elementwise
(spec §4.4.2). -/
noncomputable def unitGradV (gi : ℝ) (vi dwi : List ℝ) : List ℝ :=
  List.zipWith
    (fun dwx vx =>
      (gi / unitNorm vi) * dwx - (gi * dot dwi vi / (unitNorm vi) ^ 3) * vx)
    dwi vi

/-- Modelled from the spec: the magnitude-gradient of one output unit,
`dL/dg = (dL/dw · v)/‖v‖` (spec §4.4.3). -/
noncomputable def unitGradG (vi dwi : List ℝ) : ℝ := dot dwi vi / unitNorm vi

/-- Ternary zip, truncating to the shortest list. -/
def zipWith3 (f : α → β → γ → δ) : List α → List β → List γ → List δ
  | a :: as, b :: bs, c :: cs => f a b c :: zipWith3 f as bs cs
  | _, _, _ => []

/-- Modelled from the spec: the reparametrization chain-rule step of
`WeightNorm::Gradient`, laid out flat as the direction-gradient of every
unit followed by the magnitude-gradient of every unit (spec §4.4.4). -/
noncomputable def wnGradChain (g : List ℝ) (v dw : List (List ℝ)) : List ℝ :=
  (zipWith3 unitGradV g v dw).flatten ++ List.zipWith unitGradG v dw

/-- Modelled from the spec: `WeightNorm::Gradient` (body in the absent
`weight_norm_impl.hpp`); delegates to the inner layer's `Gradient` for
`dL/dw` (spec §4.4.1) and applies the chain rule, producing the
wrapper's flat gradient buffer. -/
noncomputable def wnGradientOp (st : WNState) (input error : List ℝ) : List ℝ :=
  wnGradChain st.g st.v (st.gradientFn st.innerParams input error)

/-- Modelled from the spec: `WeightNorm::Add` (body in the absent
`weight_norm_impl.hpp`); attaches the single wrapped layer to the
`network` list, failing fatally if a layer is already attached or the
supplied layer is absent/empty (`none`) (spec §4.1, §7). -/
def wnAdd {L : Type} (network : List L) (layer : Option L) :
    Except String (List L) :=
  match layer with
  | none => Except.error "WeightNorm::Add: no layer supplied."
  | some l =>
      if network.isEmpty then Except.ok [l]
      else Except.error "WeightNorm::Add: a layer was already added."

/-- The fields of `WeightNorm` that its `Model()` accessor reads: the
`model` flag, the attached `network` list and the always-empty `empty`
member (`weight_norm.hpp`, lines 127–136 and 179–192). -/
structure WNExposure (L : Type) where
  model : Bool
  network : List L
  empty : List L

/-- `WeightNorm::Model` from the header (lines 127–136):
`if (model) { return network; } return empty;`. -/
def WNExposure.Model {L : Type} (st : WNExposure L) : List L :=
  if st.model then st.network else st.empty

/-! ## Supporting lemmas for the WeightNorm claims -/

lemma unit_reconstruct (u : List ℝ) :
    u.map (fun x => unitNorm u * (x / unitNorm u)) = u := by
  by_cases h : unitNorm u = 0
  · have hz := unitNorm_eq_zero h
    calc u.map (fun x => unitNorm u * (x / unitNorm u))
        = u.map (fun x => x) := by
          apply List.map_congr_left
          intro x hx
          rw [hz x hx, h]
          simp
      _ = u := List.map_id u
  · calc u.map (fun x => unitNorm u * (x / unitNorm u))
        = u.map (fun x => x) := by
          apply List.map_congr_left
          intro x _
          rw [mul_comm]
          exact div_mul_cancel₀ x h
      _ = u := List.map_id u

lemma effFloored_eq_eff {eps : ℝ} (g : List ℝ) :
    ∀ v : List (List ℝ), (∀ u ∈ v, eps ≤ unitNorm u) →
      effectiveWeightsFloored eps g v = effectiveWeights g v := by
  induction g with
  | nil => intro v _; cases v <;> rfl
  | cons gi gt ih =>
    intro v h
    cases v with
    | nil => rfl
    | cons vi vt =>
      have hvi : flooredNorm vi eps = unitNorm vi :=
        max_eq_left (h vi (by simp))
      have ht := ih vt (fun u hu => h u (by simp [hu]))
      show (vi.map fun x => gi * (x / flooredNorm vi eps)) ::
          effectiveWeightsFloored eps gt vt
        = (vi.map fun x => gi * (x / unitNorm vi)) :: effectiveWeights gt vt
      rw [hvi, ht]

lemma zipWith_sub_scale (c d : ℝ) :
    ∀ (A B : List ℝ),
      List.zipWith (fun x y => c * x - d * y) A B = vsub (vscale c A) (vscale d B) := by
  intro A
  induction A with
  | nil => intro B; cases B <;> rfl
  | cons a t ih =>
    intro B
    cases B with
    | nil => rfl
    | cons b s =>
      show (c * a - d * b) :: List.zipWith (fun x y => c * x - d * y) t s
          = (c * a - d * b) :: vsub (vscale c t) (vscale d s)
      rw [ih s]

lemma unitGradV_vector_form (gi : ℝ) (vi dwi : List ℝ) :
    unitGradV gi vi dwi =
      vsub (vscale (gi / unitNorm vi) dwi)
           (vscale (gi * dot dwi vi / (unitNorm vi) ^ 3) vi) :=
  zipWith_sub_scale _ _ dwi vi

lemma zipWith3_congr {α β γ δ : Type} {f f' : α → β → γ → δ}
    (h : ∀ a b c, f a b c = f' a b c) :
    ∀ (A : List α) (B : List β) (C : List γ),
      zipWith3 f A B C = zipWith3 f' A B C := by
  intro A
  induction A with
  | nil => intro B C; cases B <;> cases C <;> rfl
  | cons a t ih =>
    intro B C
    cases B with
    | nil => cases C <;> rfl
    | cons b s =>
      cases C with
      | nil => rfl
      | cons c r => simp only [zipWith3, h, ih s r]

/-! ## Claim theorems for the WeightNorm wrapper -/

/-- C1: `WeightNorm::Gradient` writes into the wrapper's gradient buffer
the chain-rule gradients `dL/dv = (g/‖v‖) dL/dw − (g (dL/dw · v)/‖v‖³) v`
and `dL/dg = (dL/dw · v)/‖v‖`, computed per output unit from the inner
layer's gradient `dL/dw` (direction gradients first, then magnitude
gradients, in the flat layout of spec §4.4.4). -/
theorem gradient_chain_rule (st : WNState) (input error : List ℝ)
    (hnz : ∀ u ∈ st.v, unitNorm u ≠ 0) :
    wnGradientOp st input error =
      (zipWith3 (fun gi vi dwi =>
          vsub (vscale (gi / unitNorm vi) dwi)
               (vscale (gi * dot dwi vi / (unitNorm vi) ^ 3) vi))
        st.g st.v (st.gradientFn st.innerParams input error)).flatten ++
      List.zipWith (fun vi dwi => dot dwi vi / unitNorm vi)
        st.v (st.gradientFn st.innerParams input error) := by
  unfold wnGradientOp wnGradChain
  rw [zipWith3_congr unitGradV_vector_form]
  rfl

/-- C2: after `Reset()` initializes `v` to the inner layer's current
parameters and `g` to their per-unit Euclidean norm, the effective
weights `g * v / ‖v‖` reconstructed from `(v, g)` equal the inner
layer's pre-`Reset` parameters exactly, for parameter count > 0. -/
theorem reset_reconstruction (st : WNState)
    (h : 0 < paramCount st.innerParams) :
    effectiveWeights (wnReset st).g (wnReset st).v = st.innerParams := by
  show effectiveWeights (st.innerParams.map unitNorm) st.innerParams
      = st.innerParams
  generalize st.innerParams = w
  induction w with
  | nil => rfl
  | cons u t ih =>
    simp only [List.map_cons, effectiveWeights, List.zipWith] at ih ⊢
    rw [ih, unit_reconstruct u]

/-- C3: `WeightNorm::Forward` installs the effective weights
`g * v / ‖v‖` into the inner layer's parameter buffer and produces
exactly the output the inner layer's own `Forward` would produce on
that buffer (on the nondegenerate domain, where the floor of spec §7
is inactive). -/
theorem forward_effective_weights (eps : ℝ) (st : WNState) (input : List ℝ)
    (h : ∀ u ∈ st.v, eps ≤ unitNorm u) :
    (wnForward eps st input).1.innerParams = effectiveWeights st.g st.v ∧
    (wnForward eps st input).2 =
      st.forwardFn (effectiveWeights st.g st.v) input := by
  have hw : effectiveWeightsFloored eps st.g st.v = effectiveWeights st.g st.v :=
    effFloored_eq_eff st.g st.v h
  constructor
  · show effectiveWeightsFloored eps st.g st.v = effectiveWeights st.g st.v
    exact hw
  · show st.forwardFn (effectiveWeightsFloored eps st.g st.v) input = _
    rw [hw]

/-- C4: `WeightNorm::Backward` is pure delegation — it returns exactly
what `Backward` on the inner layer with its currently installed
parameter buffer returns, and it does not read `v` or `g`. -/
theorem backward_pure_delegation (st : WNState) (input gy : List ℝ) :
    wnBackward st input gy = st.backwardFn st.innerParams input gy ∧
    ∀ (v' : List (List ℝ)) (g' : List ℝ),
      wnBackward { st with v := v', g := g' } input gy = wnBackward st input gy :=
  ⟨rfl, fun _ _ => rfl⟩

/-- C5: with a unit of the direction tensor all zero, `Forward` floors
the per-unit norm at `eps`: every per-unit denominator is positive (the
division by the zero norm is never performed), the zero unit's effective
weights are the zero vector, and the output is the inner layer's output
on the floored effective weights. -/
theorem forward_zero_norm_guard (eps : ℝ) (st : WNState) (input : List ℝ)
    (u : List ℝ) (hu : u ∈ st.v) (hz : ∀ a ∈ u, a = 0) (he : 0 < eps) :
    0 < flooredNorm u eps ∧
    (∀ gi : ℝ, u.map (fun x => gi * (x / flooredNorm u eps)) =
      u.map (fun _ => (0 : ℝ))) ∧
    (wnForward eps st input).2 =
      st.forwardFn (effectiveWeightsFloored eps st.g st.v) input := by
  refine ⟨lt_of_lt_of_le he (le_max_right _ _), fun gi => ?_, rfl⟩
  apply List.map_congr_left
  intro x hx
  rw [hz x hx]
  simp

/-- C6: once a layer is attached, a second `Add` fails with a fatal
error and never silently replaces the first inner layer; `Add` also
fails when the supplied layer is absent. -/
theorem add_single_attach {L : Type} (network : List L) (layer : Option L)
    (h : network ≠ [] ∨ layer = none) :
    ∀ st' : List L, wnAdd network layer ≠ Except.ok st' := by
  intro st' hcontra
  cases layer with
  | none => simp [wnAdd] at hcontra
  | some l =>
    rcases h with hne | hnone
    · have hbe : network.isEmpty = false := by simpa using hne
      simp [wnAdd, hbe] at hcontra
    · exact Option.noConfusion hnone

/-- C7: `Model()` returns the wrapper's child-layer list `network` when
the `model` flag is enabled, and the empty list when it is disabled
(the `empty` member is the always-empty list the header documents). -/
theorem model_accessor_spec {L : Type} (st : WNExposure L)
    (h : st.empty = []) :
    (st.model = true → st.Model = st.network) ∧
    (st.model = false → st.Model = []) := by
  constructor <;> intro hm <;> simp [WNExposure.Model, hm, h]

/-- C8: for fixed `v`, `g` and input, two consecutive `Forward` calls
with no intervening mutation of `v` or `g` produce identical output and
identical state — `Forward`'s only side effect is (re)installing the
effective weights, which is idempotent. -/
theorem forward_deterministic (eps : ℝ) (st : WNState) (input : List ℝ) :
    (wnForward eps (wnForward eps st input).1 input).2 =
      (wnForward eps st input).2 ∧
    wnForward eps (wnForward eps st input).1 input = wnForward eps st input :=
  ⟨rfl, rfl⟩

/-! ## Concrete instances used by the witnesses -/

/-- A wrapper state over a single-unit inner layer with weights `[3, 4]`
(the spec §8.4 synthetic example, of norm 5). -/
noncomputable def exampleState : WNState :=
  { v := [[3, 4]], g := [1], innerParams := [[3, 4]],
    forwardFn := fun _ _ => [], backwardFn := fun _ _ _ => [],
    gradientFn := fun _ _ _ => [[1, 0]] }

/-- A wrapper state whose single unit's direction group is all zero
(the spec §8.5 degenerate example). -/
noncomputable def exampleZeroState : WNState :=
  { v := [[0, 0]], g := [1], innerParams := [[0, 0]],
    forwardFn := fun _ _ => [], backwardFn := fun _ _ _ => [],
    gradientFn := fun _ _ _ => [[0, 0]] }

lemma sum_sq_34 : (([3, 4] : List ℝ).map (fun x => x * x)).sum = 25 := by
  norm_num [List.map_cons, List.map_nil, List.sum_cons, List.sum_nil]

lemma unitNorm_34_pos : 0 < unitNorm [3, 4] := by
  rw [unitNorm, sum_sq_34]
  exact Real.sqrt_pos.mpr (by norm_num)

lemma one_le_unitNorm_34 : (1 : ℝ) ≤ unitNorm [3, 4] := by
  rw [unitNorm, sum_sq_34]
  calc (1 : ℝ) = Real.sqrt 1 := Real.sqrt_one.symm
    _ ≤ Real.sqrt 25 := Real.sqrt_le_sqrt (by norm_num)

lemma exampleState_v_norm_ne_zero : ∀ u ∈ exampleState.v, unitNorm u ≠ 0 := by
  intro u hu
  have h : u = [3, 4] := by simpa [exampleState] using hu
  rw [h]
  exact unitNorm_34_pos.ne'

lemma exampleState_v_norm_ge_one : ∀ u ∈ exampleState.v, (1 : ℝ) ≤ unitNorm u := by
  intro u hu
  have h : u = [3, 4] := by simpa [exampleState] using hu
  rw [h]
  exact one_le_unitNorm_34

/-! ## Witnesses -/

/-- Witness for C1 at the spec §8.4 example state. -/
theorem gradient_chain_rule_witness :
    (∀ u ∈ exampleState.v, unitNorm u ≠ 0) ∧
    wnGradientOp exampleState [] [] =
      (zipWith3 (fun gi vi dwi =>
          vsub (vscale (gi / unitNorm vi) dwi)
               (vscale (gi * dot dwi vi / (unitNorm vi) ^ 3) vi))
        exampleState.g exampleState.v
        (exampleState.gradientFn exampleState.innerParams [] [])).flatten ++
      List.zipWith (fun vi dwi => dot dwi vi / unitNorm vi)
        exampleState.v (exampleState.gradientFn exampleState.innerParams [] []) :=
  ⟨exampleState_v_norm_ne_zero,
   gradient_chain_rule exampleState [] [] exampleState_v_norm_ne_zero⟩

/-- Witness for C2 at the spec §8.4 example state. -/
theorem reset_reconstruction_witness :
    0 < paramCount exampleState.innerParams ∧
    effectiveWeights (wnReset exampleState).g (wnReset exampleState).v =
      exampleState.innerParams :=
  ⟨by norm_num [exampleState, paramCount],
   reset_reconstruction exampleState (by norm_num [exampleState, paramCount])⟩

/-- Witness for C3 at the spec §8.4 example state with floor `1`. -/
theorem forward_effective_weights_witness :
    (∀ u ∈ exampleState.v, (1 : ℝ) ≤ unitNorm u) ∧
    ((wnForward 1 exampleState []).1.innerParams =
        effectiveWeights exampleState.g exampleState.v ∧
      (wnForward 1 exampleState []).2 =
        exampleState.forwardFn
          (effectiveWeights exampleState.g exampleState.v) []) :=
  ⟨exampleState_v_norm_ge_one,
   forward_effective_weights 1 exampleState [] exampleState_v_norm_ge_one⟩

/-- Witness for C5 at the all-zero-unit state with floor `1`. -/
theorem forward_zero_norm_guard_witness :
    (([0, 0] : List ℝ) ∈ exampleZeroState.v ∧
      (∀ a ∈ ([0, 0] : List ℝ), a = 0) ∧ (0 : ℝ) < 1) ∧
    (0 < flooredNorm [0, 0] 1 ∧
      (∀ gi : ℝ, ([0, 0] : List ℝ).map (fun x => gi * (x / flooredNorm [0, 0] 1)) =
        ([0, 0] : List ℝ).map (fun _ => (0 : ℝ))) ∧
      (wnForward 1 exampleZeroState []).2 =
        exampleZeroState.forwardFn
          (effectiveWeightsFloored 1 exampleZeroState.g exampleZeroState.v) []) :=
  have hu : ([0, 0] : List ℝ) ∈ exampleZeroState.v := by simp [exampleZeroState]
  have hz : ∀ a ∈ ([0, 0] : List ℝ), a = 0 := by
    intro a ha
    simp only [List.mem_cons, List.not_mem_nil, or_false] at ha
    rcases ha with rfl | rfl <;> rfl
  ⟨⟨hu, hz, one_pos⟩,
   forward_zero_norm_guard 1 exampleZeroState [] [0, 0] hu hz one_pos⟩

/-- Witness for C6: a second `Add` on a wrapper holding a layer fails. -/
theorem add_single_attach_witness :
    (([0] : List ℕ) ≠ [] ∨ (some 1 : Option ℕ) = none) ∧
    wnAdd ([0] : List ℕ) (some 1) ≠ Except.ok [1] :=
  ⟨Or.inl (by decide), add_single_attach [0] (some 1) (Or.inl (by decide)) [1]⟩

/-- Witness for C7 at concrete exposure records with `empty = []`. -/
theorem model_accessor_spec_witness :
    ((⟨true, [7], []⟩ : WNExposure ℕ).empty = [] ∧
      (⟨false, [7], []⟩ : WNExposure ℕ).empty = []) ∧
    ((⟨true, [7], []⟩ : WNExposure ℕ).Model = [7] ∧
      (⟨false, [7], []⟩ : WNExposure ℕ).Model = []) :=
  ⟨⟨rfl, rfl⟩,
   (model_accessor_spec (⟨true, [7], []⟩ : WNExposure ℕ) rfl).1 rfl,
   (model_accessor_spec (⟨false, [7], []⟩ : WNExposure ℕ) rfl).2 rfl⟩

/-! ## Preprocess-imputer binding (`preprocess_imputer_main.cpp`)

A dataset is a list of data points (columns), each a list of row
entries; `none` marks a missing value (the binding's `missing_value`
after mapping). -/

/-- The imputation strategies the binding recognizes. -/
inductive ImputeStrategy where
  | mean
  | median
  | custom
  | listwiseDeletion
deriving DecidableEq

/-- Modelled from the spec: the strategy-string validation of the absent
`preprocess_imputer_main.cpp`; only `mean`, `median`, `custom` and
`listwise_deletion` are recognized. -/
def parseStrategy (s : String) : Option ImputeStrategy :=
  if s = "mean" then some ImputeStrategy.mean
  else if s = "median" then some ImputeStrategy.median
  else if s = "custom" then some ImputeStrategy.custom
  else if s = "listwise_deletion" then some ImputeStrategy.listwiseDeletion
  else none

/-- The values present in row (dimension) `r` across all points. -/
def rowValues (d : List (List (Option ℚ))) (r : ℕ) : List ℚ :=
  d.filterMap (fun col => col.getD r none)

/-- Arithmetic mean of a list of rationals. -/
def meanOf (l : List ℚ) : ℚ := l.sum / l.length

/-- Insertion into a sorted list. -/
def insertSorted (x : ℚ) : List ℚ → List ℚ
  | [] => [x]
  | y :: t => if x ≤ y then x :: y :: t else y :: insertSorted x t

/-- Insertion sort. -/
def sortQ : List ℚ → List ℚ
  | [] => []
  | x :: t => insertSorted x (sortQ t)

/-- Median as the middle element of the sorted list. -/
def medianOf (l : List ℚ) : ℚ := (sortQ l).getD (l.length / 2) 0

/-- Fill one point's entries, replacing the missing entry of row `r`
with `f r`. -/
def fillColumn (f : ℕ → ℚ) : ℕ → List (Option ℚ) → List ℚ
  | _, [] => []
  | r, e :: t => e.getD (f r) :: fillColumn f (r + 1) t

/-- Impute every point of the dataset with the per-row fill values. -/
def imputeFill (f : ℕ → ℚ) (d : List (List (Option ℚ))) : List (List ℚ) :=
  d.map (fillColumn f 0)

/-- Drop every point that has a missing entry. -/
def listwiseDelete (d : List (List (Option ℚ))) : List (List ℚ) :=
  (d.filter (fun col => col.all (fun e => e.isSome))).map
    (fun col => col.filterMap id)

/-- Modelled from the spec: the preprocess-imputer binding
(`preprocess_imputer_main.cpp` is absent from the sources; only its
tests are present).  An unrecognized strategy string raises
`std::runtime_error`, modelled as `Except.error`; `mean` and `median`
fill each missing entry with the per-row mean/median of the available
values, `custom` fills with the supplied custom value, and
`listwise_deletion` drops every point with a missing entry. -/
def imputerBinding (strategy : String) (customValue : ℚ)
    (d : List (List (Option ℚ))) : Except String (List (List ℚ)) :=
  match parseStrategy strategy with
  | none => Except.error ("Invalid strategy: " ++ strategy)
  | some ImputeStrategy.mean =>
      Except.ok (imputeFill (fun r => meanOf (rowValues d r)) d)
  | some ImputeStrategy.median =>
      Except.ok (imputeFill (fun r => medianOf (rowValues d r)) d)
  | some ImputeStrategy.custom =>
      Except.ok (imputeFill (fun _ => customValue) d)
  | some ImputeStrategy.listwiseDeletion =>
      Except.ok (listwiseDelete d)

lemma fillColumn_length (f : ℕ → ℚ) :
    ∀ (r : ℕ) (col : List (Option ℚ)),
      (fillColumn f r col).length = col.length := by
  intro r col
  induction col generalizing r with
  | nil => rfl
  | cons e t ih => simp [fillColumn, ih]

lemma imputeFill_dims (f : ℕ → ℚ) (d : List (List (Option ℚ))) :
    (imputeFill f d).map List.length = d.map List.length := by
  induction d with
  | nil => rfl
  | cons col t ih =>
    simp only [imputeFill, List.map_cons] at ih ⊢
    rw [fillColumn_length f 0 col, ih]

/-- C10: the imputer binding fails with a runtime error on any strategy
string that is not one of `mean`, `median`, `custom`,
`listwise_deletion`, while the recognized strategies `mean`, `median`
and `custom` produce an output dataset of the same dimensions (same
number of points, and the same number of rows in every point) as the
input. -/
theorem imputer_strategy_and_dimensions (s : String) (cv : ℚ)
    (d : List (List (Option ℚ))) :
    (parseStrategy s = none →
      imputerBinding s cv d = Except.error ("Invalid strategy: " ++ s)) ∧
    (s = "mean" ∨ s = "median" ∨ s = "custom" →
      ∃ out, imputerBinding s cv d = Except.ok out ∧
        out.map List.length = d.map List.length) := by
  constructor
  · intro h
    unfold imputerBinding
    rw [h]
  · intro h
    rcases h with rfl | rfl | rfl
    · exact ⟨_, rfl, imputeFill_dims _ d⟩
    · exact ⟨_, rfl, imputeFill_dims _ d⟩
    · exact ⟨_, rfl, imputeFill_dims _ d⟩

/-- A concrete 2-point, 3-row dataset with one missing entry. -/
def exampleImputeData : List (List (Option ℚ)) :=
  [[some 1, none, some 3], [some 4, some 5, some 6]]

/-- Witness for C10: the invalid strategy string of the test
(`"notmean"`) errors, and `"mean"` succeeds preserving dimensions. -/
theorem imputer_strategy_and_dimensions_witness :
    (parseStrategy "notmean" = none ∧
      imputerBinding "notmean" 0 exampleImputeData =
        Except.error ("Invalid strategy: " ++ "notmean")) ∧
    (∃ out, imputerBinding "mean" 0 exampleImputeData = Except.ok out ∧
      out.map List.length = exampleImputeData.map List.length) :=
  have hp : parseStrategy "notmean" = none := by decide
  ⟨⟨hp, (imputer_strategy_and_dimensions "notmean" 0 exampleImputeData).1 hp⟩,
   (imputer_strategy_and_dimensions "mean" 0 exampleImputeData).2 (Or.inl rfl)⟩

end Mlpack
